import Mathlib

/-!
Verification of the repository-synchronization and search core of the
noir-mcp-server codebase, via a shallow embedding of the TypeScript source
into Lean.

Pure string manipulation from JavaScript (startsWith, substring, split, trim,
toLowerCase, includes) is modelled by list-of-character functions.  Effectful
operations (the filesystem, git subprocess calls, the external `rg` matcher,
and the JavaScript RegExp engine) are modelled by explicit state records and
oracle parameters, so that every function of the embedding is executable.
-/

namespace NoirMcp

/-! ## JavaScript string primitives, modelled on character lists -/

/-- Model of JavaScript `s.startsWith(pre)`. -/
def jsStartsWith (s pre : String) : Bool :=
  pre.data.isPrefixOf s.data

/-- Model of JavaScript `s.endsWith(suf)`. -/
def jsEndsWith (s suf : String) : Bool :=
  suf.data.isSuffixOf s.data

/-- Whether `pat` occurs as a contiguous sublist of the second argument. -/
def subOccurs (pat : List Char) : List Char → Bool
  | [] => pat.isEmpty
  | c :: rest => pat.isPrefixOf (c :: rest) || subOccurs pat rest

/-- Model of JavaScript `s.includes(pat)`. -/
def jsIncludes (s pat : String) : Bool :=
  subOccurs pat.data s.data

/-- ASCII lower-casing of one character (the fragment of JavaScript
`toLowerCase` exercised by the code's status strings). -/
def jsLowerChar (c : Char) : Char :=
  if c.toNat ≥ 65 && c.toNat ≤ 90 then Char.ofNat (c.toNat + 32) else c

/-- Model of JavaScript `s.toLowerCase()` (ASCII fragment). -/
def jsToLower (s : String) : String :=
  ⟨s.data.map jsLowerChar⟩

/-- JavaScript whitespace test for `trim` (ASCII fragment: space, tab, CR, LF,
vertical tab, form feed). -/
def jsIsSpace (c : Char) : Bool :=
  c = ' ' || c = '\t' || c = '\n' || c = '\r' || c = Char.ofNat 11 || c = Char.ofNat 12

/-- Trim leading and trailing whitespace from a character list. -/
def trimL (l : List Char) : List Char :=
  ((l.dropWhile jsIsSpace).reverse.dropWhile jsIsSpace).reverse

/-- Model of JavaScript `s.trim()`. -/
def jsTrim (s : String) : String :=
  ⟨trimL s.data⟩

/-- Split a character list at every occurrence of the character `c`
(model of JavaScript `s.split(c)` for a one-character separator). -/
def splitOnCharL (c : Char) : List Char → List (List Char)
  | [] => [[]]
  | x :: xs =>
    if x = c then
      [] :: splitOnCharL c xs
    else
      match splitOnCharL c xs with
      | [] => [[x]]
      | h :: t => (x :: h) :: t

/-- Model of JavaScript `s.split(sep)` for a one-character separator. -/
def jsSplitChar (c : Char) (s : String) : List String :=
  (splitOnCharL c s.data).map (fun l => ⟨l⟩)

/-- Model of JavaScript `s.substring(0, n)`. -/
def jsTake (s : String) (n : Nat) : String :=
  ⟨s.data.take n⟩

/-- JavaScript string truthiness of an optional string field:
`undefined` and the empty string are falsy. -/
def truthy : Option String → Bool
  | none => false
  | some s => !(s == "")

/-- Model of JavaScript `a || b` on optional string fields: the first truthy
value, if any. -/
def jsOr (a b : Option String) : Option String :=
  if truthy a then a else b

/-- Rendering of a possibly-undefined string inside a template literal:
JavaScript prints `undefined` for a missing value. -/
def showOpt : Option String → String
  | some s => s
  | none => "undefined"

/-! ## Repository configuration (src/repos/config.ts)

`RepoConfig` keeps exactly the fields that the synchronization engine reads;
the descriptive fields (`description`, `category`, `searchPatterns`) carry no
decision logic in the verified operations and are omitted. -/

structure RepoConfig where
  name : String
  url : String
  branch : Option String
  tag : Option String
  commit : Option String
  sparse : Option (List String)
deriving DecidableEq, Repr

/-! ## The on-disk state of one mirror entry (Mirror Store)

`dirExists` models `existsSync(repoPath)`; `gitExists` models
`existsSync(join(repoPath, ".git"))`; `commit` is the full hash that
`git log -1` reports (none when the log has no entry); `tag` is the tag that
`git describe --tags --exact-match HEAD` reports (none when HEAD is not
exactly on a tag, in which case the call throws and is caught). -/

structure RepoState where
  dirExists : Bool
  gitExists : Bool
  commit : Option String
  tag : Option String
deriving DecidableEq, Repr

/-- The state after `rmSync(repoPath, { recursive: true, force: true })`. -/
def removedState : RepoState :=
  ⟨false, false, none, none⟩

/-- Model of `isRepoCloned` (src/utils/git.ts): the `.git` marker exists. -/
def isRepoCloned (s : RepoState) : Bool :=
  s.gitExists

/-- Model of `getRepoCommit(name, true)` (src/utils/git.ts): the full current
commit hash, or null when the repo is not cloned or the log is empty. -/
def getRepoCommit (s : RepoState) : Option String :=
  if isRepoCloned s then s.commit else none

/-- Model of `getRepoTag` (src/utils/git.ts): the exact tag at HEAD, or null
when the repo is not cloned or HEAD is not precisely on a tag. -/
def getRepoTag (s : RepoState) : Option String :=
  if isRepoCloned s then s.tag else none

/-- Model of `needsReclone` (src/utils/git.ts lines 210-226).

```
if (!isRepoCloned(config.name)) return true;
if (config.commit) {
  const currentCommit = await getRepoCommit(config.name, true);
  return !currentCommit?.startsWith(config.commit.substring(0, 7));
}
if (config.tag) {
  const currentTag = await getRepoTag(config.name);
  return currentTag !== config.tag;
}
return false;
```

JavaScript truthiness of `config.commit` / `config.tag` is `truthy`; the
optional-chaining expression `!currentCommit?.startsWith(p)` evaluates to
`true` when `currentCommit` is null. -/
def needsReclone (config : RepoConfig) (s : RepoState) : Bool :=
  if !(isRepoCloned s) then true
  else if truthy config.commit then
    match getRepoCommit s with
    | some h => !(jsStartsWith h (jsTake (config.commit.getD "") 7))
    | none => true
  else if truthy config.tag then
    match getRepoTag s with
    | some t => !(t == config.tag.getD "")
    | none => true
  else false

/-! ## Git effect oracle

The outcomes of the git subprocess calls are external to the program; they are
supplied as an oracle.  A failed git command leaves the working tree unchanged
(the surrounding `try` observes only the exception), so a failure is modelled
by the absence of a successor state. -/

structure GitOracle where
  /-- Resulting state when `git fetch --depth=1 && git reset --hard origin/HEAD`
  succeeds; `none` when that sequence throws. -/
  fetchResetResult : Option RepoState
  /-- Resulting state when the fallback `git pull` succeeds; `none` when it
  throws. -/
  pullResult : Option RepoState
  /-- The stringified error of the failed pull, as interpolated into the
  returned status. -/
  pullErr : String
  /-- Whether the fresh clone/fetch/checkout sequence succeeds. -/
  cloneOk : Bool
  /-- The stringified error thrown by a failed clone sequence. -/
  cloneErr : String
  /-- Resulting state of a successful fresh clone sequence. -/
  cloneState : RepoState
deriving DecidableEq, Repr

/-- Model of `updateRepo` (src/utils/git.ts lines 139-161).  The `Except`
error case models the thrown `Error`; every other outcome is a returned
status string.  The pair also carries the mirror state after the call. -/
def updateRepo (repoName : String) (s : RepoState) (g : GitOracle) :
    RepoState × Except String String :=
  if !(isRepoCloned s) then
    (s, .error ("Repository " ++ repoName ++ " is not cloned"))
  else
    match g.fetchResetResult with
    | some s1 => (s1, .ok ("Updated " ++ repoName))
    | none =>
      match g.pullResult with
      | some s2 => (s2, .ok ("Updated " ++ repoName))
      | none => (s, .ok ("Failed to update " ++ repoName ++ ": " ++ g.pullErr))

/-- The observable git-level actions of one `cloneRepo` call, in order. -/
inductive CloneAction
  | removeDir
  | updateInPlace
  | freshClone
deriving DecidableEq, Repr

/-- Result of a `cloneRepo` call: the ordered action trace, the final mirror
state, and either the returned status string or the thrown error. -/
structure CloneOutcome where
  trace : List CloneAction
  state : RepoState
  result : Except String String
deriving Repr

/-- The status string returned by a successful fresh clone
(src/utils/git.ts lines 108 and 132): ref resolution is
`config.commit || config.tag || config.branch` and the ref kind follows the
same priority. -/
def cloneStatus (config : RepoConfig) : String :=
  let ref := showOpt (jsOr config.commit (jsOr config.tag config.branch))
  let refType :=
    if truthy config.commit then "commit"
    else if truthy config.tag then "tag" else "branch"
  match config.sparse with
  | some paths =>
    if paths.length > 0 then
      "Cloned " ++ config.name ++ " @ " ++ ref ++ " (" ++ refType ++
        ", sparse: " ++ String.intercalate ", " paths ++ ")"
    else
      "Cloned " ++ config.name ++ " @ " ++ ref ++ " (" ++ refType ++ ")"
  | none =>
    "Cloned " ++ config.name ++ " @ " ++ ref ++ " (" ++ refType ++ ")"

/-- Model of `cloneRepo` (src/utils/git.ts lines 42-134).

```
ensureReposDir();
const versionMismatch = await needsReclone(config);
if ((force || versionMismatch) && existsSync(repoPath)) {
  rmSync(repoPath, { recursive: true, force: true });
}
if (isRepoCloned(config.name)) {
  return await updateRepo(config.name);
}
... fresh clone chosen by sparse/commit/tag/branch ...
```

The branching among the six fresh-clone variants only selects git commands
whose outcome the oracle summarizes, so the fresh-clone step is one trace
action. -/
def cloneRepo (config : RepoConfig) (s : RepoState) (g : GitOracle)
    (force : Bool) : CloneOutcome :=
  let versionMismatch := needsReclone config s
  let removed := (force || versionMismatch) && s.dirExists
  let s1 := if removed then removedState else s
  let t0 := if removed then [CloneAction.removeDir] else []
  if isRepoCloned s1 then
    let u := updateRepo config.name s1 g
    ⟨t0 ++ [CloneAction.updateInPlace], u.1, u.2⟩
  else if g.cloneOk then
    ⟨t0 ++ [CloneAction.freshClone], g.cloneState, .ok (cloneStatus config)⟩
  else
    ⟨t0 ++ [CloneAction.freshClone], s1, .error g.cloneErr⟩

/-! ## Filesystem model

A filesystem is a list of (absolute path, content) pairs.  A content of
`none` models a file that exists but cannot be read (`readFileSync` throws).
A directory exists when some file lies at or beneath it. -/

structure FS where
  files : List (String × Option String)
deriving Repr

/-- Model of `existsSync(p)`: the path is a listed file, or some listed file
lies strictly beneath it (so it is a directory). -/
def existsSync (fs : FS) (p : String) : Bool :=
  fs.files.any fun f => f.1 == p || jsStartsWith f.1 (p ++ "/")

/-- Model of `readFileSync(p, "utf-8")` wrapped in the callers' `try`:
`none` both when the path is absent and when the read throws. -/
def readFileSyncFS (fs : FS) (p : String) : Option String :=
  match fs.files.find? (fun f => f.1 == p) with
  | some f => f.2
  | none => none

/-- Model of Node's `path.join(root, p)` for the plain relative segments this
code passes (no `..` normalization is exercised). -/
def nodeJoin (root p : String) : String :=
  root ++ "/" ++ p

/-- Model of Node's `path.relative(root, p)` for the invocations in this
code, where `p` is the root itself or lies beneath it.  Other inputs are
returned unchanged (the code never produces them). -/
def nodeRelative (root p : String) : String :=
  if root == p then ""
  else if jsStartsWith p (root ++ "/") then ⟨p.data.drop (root.data.length + 1)⟩
  else p

/-- `relativePath.split("/")[0]` — the owning repository name. -/
def firstSegment (s : String) : String :=
  (jsSplitChar '/' s).headD ""

/-! ## Search results (src/utils/search.ts) -/

structure SearchResult where
  file : String
  line : Option Nat
  content : String
  repo : String
deriving DecidableEq, Repr

/-- Replace the first occurrence of `pat` in the list by `rep`. -/
def replaceFirstL (pat rep : List Char) : List Char → List Char
  | [] => if pat.isEmpty then rep else []
  | c :: rest =>
    if pat.isPrefixOf (c :: rest) then rep ++ (c :: rest).drop pat.length
    else c :: replaceFirstL pat rep rest

/-- Model of `filePattern.replace("*.", "**/*.")` — JavaScript `replace` with
a string pattern replaces only the first occurrence. -/
def replaceFirst (s pat rep : String) : String :=
  ⟨replaceFirstL pat.data rep.data s.data⟩

/-- Glob matching for the patterns this code produces after `replaceFirst`:
`**/*.ext` matches any relative path ending in `.ext`, and
a brace alternation suffix matches any of the listed extensions
(models globby's matching for exactly these shapes). -/
def globMatch (pattern relPath : String) : Bool :=
  if jsStartsWith pattern "**/*." then
    let suf : List Char := pattern.data.drop 5
    match suf with
    | c :: inner =>
      if c = Char.ofNat 123 then
        match inner.reverse with
        | d :: innerRev =>
          if d = Char.ofNat 125 then
            (splitOnCharL ',' innerRev.reverse).any fun ext =>
              jsEndsWith relPath ⟨'.' :: ext⟩
          else jsEndsWith relPath ⟨'.' :: suf⟩
        | [] => jsEndsWith relPath ⟨'.' :: suf⟩
      else jsEndsWith relPath ⟨'.' :: suf⟩
    | [] => false
  else pattern == relPath

/-- Model of `globbySync(pattern, { cwd, absolute: true, ignore: [...] })`:
the listed files beneath `cwd` whose cwd-relative path matches the pattern,
minus the ignored `node_modules` and `.git` subtrees. -/
def globbySync (fs : FS) (pattern cwd : String) : List String :=
  (fs.files.map Prod.fst).filter fun p =>
    jsStartsWith p (cwd ++ "/") &&
    globMatch pattern ⟨p.data.drop (cwd.data.length + 1)⟩ &&
    !(jsIncludes p "/node_modules/") && !(jsIncludes p "/.git/")

/-! ## The JavaScript RegExp engine, as an oracle

`compile pat ignoreCase` models `new RegExp(pat, flags)`: `none` when the
constructor throws a SyntaxError, otherwise the per-line test function
(`lastIndex` is reset after every `test`, so each test is pure). -/

structure RegexEngine where
  compile : String → Bool → Option (String → Bool)

/-- The regex metacharacters escaped by the fallback:
`query.replace(/[.*+?^$\x7b\x7d()|[\]\\]/g, "\\$&")`. -/
def regexMeta (c : Char) : Bool :=
  c = '.' || c = '*' || c = '+' || c = '?' || c = '^' || c = '$' ||
  c = Char.ofNat 123 || c = Char.ofNat 125 || c = '(' || c = ')' ||
  c = '|' || c = '[' || c = ']' || c = '\\'

/-- The escaped query built on regex-compilation failure. -/
def escapeRegex (q : String) : String :=
  ⟨q.data.flatMap fun c => if regexMeta c then ['\\', c] else [c]⟩

/-- Literal-substring matching, the JavaScript semantics of testing a fully
escaped pattern: case-insensitive when the `i` flag is present
(`caseSensitive = false`). -/
def litTest (q : String) (caseSensitive : Bool) (s : String) : Bool :=
  if caseSensitive then jsIncludes s q
  else jsIncludes (jsToLower s) (jsToLower q)

/-- The `SearchResult` pushed by the fallback scan for a match of line `l`
(0-based index `i`) in absolute file `f`. -/
def mkScanResult (reposDir f l : String) (i : Nat) : SearchResult :=
  ⟨nodeRelative reposDir f, some (i + 1), jsTrim l,
    firstSegment (nodeRelative reposDir f)⟩

/-- The inner line loop of `manualSearch` (src/utils/search.ts lines
302-318): stop as soon as `maxResults` results are collected, push a result
for every line the regex accepts. -/
def scanLines (test : String → Bool) (reposDir f : String) :
    List String → Nat → Nat → List SearchResult → List SearchResult
  | [], _, _, acc => acc
  | l :: rest, i, maxResults, acc =>
    if acc.length ≥ maxResults then acc
    else
      let acc' := if test l then acc ++ [mkScanResult reposDir f l i] else acc
      scanLines test reposDir f rest (i + 1) maxResults acc'

/-- The outer file loop of `manualSearch` (src/utils/search.ts lines
295-322): unreadable files are skipped silently. -/
def scanFiles (fs : FS) (test : String → Bool) (reposDir : String) :
    List String → Nat → List SearchResult → List SearchResult
  | [], _, acc => acc
  | f :: rest, maxResults, acc =>
    if acc.length ≥ maxResults then acc
    else
      match readFileSyncFS fs f with
      | none => scanFiles fs test reposDir rest maxResults acc
      | some content =>
        scanFiles fs test reposDir rest maxResults
          (scanLines test reposDir f (jsSplitChar '\n' content) 0 maxResults acc)

/-- Model of `manualSearch` (src/utils/search.ts lines 271-328).  A throw
anywhere inside the `try` (globby failure, or — per this model — a second
RegExp construction failure) lands in the catch, which returns the results
accumulated so far, i.e. the empty list. -/
def manualSearch (fs : FS) (eng : RegexEngine) (reposDir : String)
    (query searchPath filePattern : String) (maxResults : Nat)
    (caseSensitive : Bool) : List SearchResult :=
  let pattern := replaceFirst filePattern "*." "**/*."
  let files := globbySync fs pattern searchPath
  match eng.compile query (!caseSensitive) with
  | some test => scanFiles fs test reposDir files maxResults []
  | none =>
    match eng.compile (escapeRegex query) (!caseSensitive) with
    | some test => scanFiles fs test reposDir files maxResults []
    | none => []

/-! ## Parsing ripgrep output (src/utils/search.ts lines 246-269) -/

/-- Numeric value of a digit string, as `parseInt(ds, 10)` computes it for a
string of decimal digits. -/
def digitsVal (ds : List Char) : Nat :=
  ds.foldl (fun a c => a * 10 + (c.toNat - 48)) 0

/-- The `:(\d+):(.*)$` tail of the line regex, applied after a candidate
`path:` split: the greedy `(\d+)` takes the maximal digit run, which must be
non-empty and be followed by a colon (no shorter digit run can be, since a
digit is not a colon); the rest of the line is the content capture. -/
def tailNumMatch (t : List Char) : Option (Nat × List Char) :=
  let ds := t.takeWhile Char.isDigit
  if ds.isEmpty then none
  else
    match t.drop ds.length with
    | ':' :: rest => some (digitsVal ds, rest)
    | _ => none

/-- The lazy `^(.+?):(\d+):(.*)$` match: try each colon position from the
left (with a non-empty path prefix, accumulated reversed in `pre`) until the
numeric tail matches. -/
def findSplit : List Char → List Char → Option (String × Nat × String)
  | _, [] => none
  | pre, c :: rest =>
    if c = ':' && !pre.isEmpty then
      match tailNumMatch rest with
      | some (n, content) => some (⟨pre.reverse⟩, n, ⟨content⟩)
      | none => findSplit (c :: pre) rest
    else findSplit (c :: pre) rest

/-- Model of `line.match(/^(.+?):(\d+):(.*)$/)` on a newline-free line. -/
def parseRgLine (line : String) : Option (String × Nat × String) :=
  findSplit [] line.data

/-- The `SearchResult` pushed for one parsed ripgrep line. -/
def mkRgResult (reposDir path : String) (n : Nat) (content : String) :
    SearchResult :=
  ⟨nodeRelative reposDir path, some n, jsTrim content,
    firstSegment (nodeRelative reposDir path)⟩

/-- The line loop of `parseRgOutput`: break at `maxResults`, push parsed
lines, drop malformed ones silently. -/
def parseRgGo (reposDir : String) (maxResults : Nat) :
    List String → List SearchResult → List SearchResult
  | [], acc => acc
  | l :: rest, acc =>
    if acc.length ≥ maxResults then acc
    else
      match parseRgLine l with
      | some (path, n, content) =>
        parseRgGo reposDir maxResults rest (acc ++ [mkRgResult reposDir path n content])
      | none => parseRgGo reposDir maxResults rest acc

/-- Model of `parseRgOutput` (src/utils/search.ts lines 246-269):
`output.split("\n").filter(Boolean)` keeps the non-empty lines. -/
def parseRgOutput (reposDir output : String) (maxResults : Nat) :
    List SearchResult :=
  parseRgGo reposDir maxResults ((jsSplitChar '\n' output).filter (fun l => !(l == ""))) []

/-! ## escapeShell (src/utils/search.ts lines 242-244) -/

/-- The characters the shell interprets inside double quotes, exactly the
class of `str.replace(/["$\x60\\!]/g, "\\$&")`: double quote, dollar,
backtick, backslash, exclamation mark. -/
def shellActive (c : Char) : Bool :=
  c = '"' || c = '$' || c = Char.ofNat 96 || c = '\\' || c = '!'

/-- Model of `escapeShell`: prefix every shell-active character with a
backslash. -/
def escapeShell (s : String) : String :=
  ⟨s.data.flatMap fun c => if shellActive c then ['\\', c] else [c]⟩

/-- Left-to-right scan of a double-quoted shell word: a backslash consumes
the following character; the scan reports `true` when it meets a
shell-active character that no backslash consumed (or a trailing lone
backslash, which would escape the closing quote). -/
def hasUnescapedActive : List Char → Bool
  | [] => false
  | c :: rest =>
    if c = '\\' then
      match rest with
      | [] => true
      | _ :: rs => hasUnescapedActive rs
    else if shellActive c then true else hasUnescapedActive rest

/-! ## searchCode (src/utils/search.ts lines 37-91)

The `execSync` invocation of ripgrep is an oracle: `some out` when the
subprocess exits successfully printing `out`, `none` when it throws (rg
missing, non-zero exit — including the no-match exit — or timeout), which
takes the fallback path. -/

/-- The resolved scan root: `repo ? getRepoPath(repo) : REPOS_DIR`. -/
def searchRoot (reposDir : String) : Option String → String
  | some r => reposDir ++ "/" ++ r
  | none => reposDir

/-- Model of `searchCode`. -/
def searchCode (fs : FS) (eng : RegexEngine) (reposDir : String)
    (rgOut : Option String) (query filePattern : String)
    (repo : Option String) (maxResults : Nat) (caseSensitive : Bool) :
    List SearchResult :=
  let searchPath := searchRoot reposDir repo
  if !(existsSync fs searchPath) then []
  else
    match rgOut with
    | some out => parseRgOutput reposDir out maxResults
    | none =>
      manualSearch fs eng reposDir query searchPath filePattern maxResults
        caseSensitive

/-! ## readFile (src/utils/search.ts lines 200-214) and
readRepoFile (src/tools, `read_file` tool) -/

/-- Model of `readFile`: an argument beginning with `/` is used as an
absolute path unchanged; anything else is joined beneath the repos
directory; a missing or unreadable file yields null. -/
def readFile (fs : FS) (reposDir filePath : String) : Option String :=
  let fullPath :=
    if jsStartsWith filePath "/" then filePath else nodeJoin reposDir filePath
  if !(existsSync fs fullPath) then none
  else readFileSyncFS fs fullPath

structure ReadRepoFileResult where
  success : Bool
  content : Option String
  message : String
deriving DecidableEq, Repr

/-- Model of `readRepoFile`: `if (!content)` treats both null and the empty
string as failure. -/
def readRepoFile (fs : FS) (reposDir path : String) : ReadRepoFileResult :=
  match readFile fs reposDir path with
  | none =>
    ⟨false, none,
      "File not found: " ++ path ++
        ". Make sure the path is relative to the repos directory."⟩
  | some c =>
    if c == "" then
      ⟨false, none,
        "File not found: " ++ path ++
          ". Make sure the path is relative to the repos directory."⟩
    else ⟨true, some c, "Read file: " ++ path⟩

/-! ## syncRepos (src/tools/sync.ts) — the per-repository loop and batch
aggregation over an already-selected list of pins.  The per-repository sync
(`await cloneRepo(config, force)`) is abstracted as a function returning
either the status string or the thrown error's message. -/

structure SyncEntry where
  name : String
  status : String
deriving DecidableEq, Repr

structure SyncResult where
  success : Bool
  message : String
  repos : List SyncEntry
deriving DecidableEq, Repr

/-- `r.status.toLowerCase().includes("error")`. -/
def statusHasError (status : String) : Bool :=
  jsIncludes (jsToLower status) "error"

/-- The entry recorded for one pin: a thrown error is caught and converted
into an `Error: ...` status. -/
def syncEntryFor (run : RepoConfig → Except String String)
    (c : RepoConfig) : SyncEntry :=
  match run c with
  | .ok st => ⟨c.name, st⟩
  | .error msg => ⟨c.name, "Error: " ++ msg⟩

/-- Model of `syncRepos` from the empty-selection check onward. -/
def syncRepos (reposDir : String) (pins : List RepoConfig)
    (run : RepoConfig → Except String String) : SyncResult :=
  if pins.isEmpty then
    ⟨false, "No repositories matched the specified names or categories", []⟩
  else
    let results := pins.map (syncEntryFor run)
    let allSuccess := results.all fun r => !(statusHasError r.status)
    ⟨allSuccess,
      if allSuccess then
        "Successfully synced " ++ toString results.length ++
          " repositories to " ++ reposDir
      else "Some repositories failed to sync",
      results⟩

/-! ## Helper lemmas -/

theorem subOccurs_of_isPrefixOf {pat l : List Char}
    (h : pat.isPrefixOf l = true) : subOccurs pat l = true := by
  cases l with
  | nil =>
    cases pat with
    | nil => rfl
    | cons c cs => simp [List.isPrefixOf] at h
  | cons c rest => simp [subOccurs, h]

theorem isPrefixOf_append_of_isPrefixOf {a b : List Char} (c : List Char)
    (h : a.isPrefixOf b = true) : a.isPrefixOf (b ++ c) = true := by
  rw [List.isPrefixOf_iff_prefix] at h ⊢
  exact h.trans (List.prefix_append b c)

theorem jsIncludes_of_prefix {p a : String} (b : String)
    (h : p.data.isPrefixOf a.data = true) : jsIncludes (a ++ b) p = true := by
  apply subOccurs_of_isPrefixOf
  show p.data.isPrefixOf (a.data ++ b.data) = true
  exact isPrefixOf_append_of_isPrefixOf _ h

/-! ## Claim C1 -/

/-- C1, counterexample.  The claim says `needsReclone` returns false exactly
when the mirror's current full commit hash starts with the pin's commit
string; at a 9-character pin whose first 7 characters match the mirror hash
but whose 8th does not, the code returns false although the hash does not
start with the pin's commit string. -/
theorem commitPin_reclone_fullprefix_cex :
    ¬ ((needsReclone ⟨"noir", "url", none, none, some "0123456aa", none⟩
          ⟨true, true, some "0123456bb", none⟩ = false) ↔
        ((getRepoCommit ⟨true, true, some "0123456bb", none⟩).any
            (fun h => jsStartsWith h "0123456aa")) = true) := by
  decide

/-- C1, amended: for a pin with a non-empty `commit`, `needsReclone` returns
true when no mirror entry exists or the mirror has no readable commit hash,
and otherwise returns false exactly when the mirror's current full commit
hash starts with the FIRST SEVEN CHARACTERS of the pin's commit string
(`config.commit.substring(0, 7)`). -/
theorem commitPin_reclone_prefix7 (pin : RepoConfig) (s : RepoState)
    (c : String) (hc : pin.commit = some c) (hne : c ≠ "") :
    (isRepoCloned s = false → needsReclone pin s = true) ∧
    (isRepoCloned s = true → getRepoCommit s = none →
      needsReclone pin s = true) ∧
    (∀ h, isRepoCloned s = true → getRepoCommit s = some h →
      (needsReclone pin s = false ↔ jsStartsWith h (jsTake c 7) = true)) := by
  have htrc : truthy (some c) = true := by
    simp [truthy, hne]
  refine ⟨?_, ?_, ?_⟩
  · intro hcl
    simp [needsReclone, hcl]
  · intro hcl hnone
    simp [needsReclone, hcl, hc, htrc, hnone]
  · intro h hcl hsome
    simp [needsReclone, hcl, hc, htrc, hsome]

/-- C1, witness for the amended theorem at a concrete pin and mirror
state. -/
theorem commitPin_reclone_prefix7_witness :
    (needsReclone ⟨"noir", "url", none, none, some "abc1234def5678", none⟩
        ⟨true, false, none, none⟩ = true) ∧
    (needsReclone ⟨"noir", "url", none, none, some "abc1234def5678", none⟩
        ⟨true, true, some "abc1234def5678", none⟩ = false ↔
      jsStartsWith "abc1234def5678" (jsTake "abc1234def5678" 7) = true) :=
  ⟨(commitPin_reclone_prefix7 _ ⟨true, false, none, none⟩ _ rfl (by decide)).1
      rfl,
    (commitPin_reclone_prefix7 _ ⟨true, true, some "abc1234def5678", none⟩ _
      rfl (by decide)).2.2 "abc1234def5678" rfl rfl⟩

/-! ## Claim C8 -/

/-- C8: for a pin with a tag and no commit whose mirror entry exists,
`needsReclone` is true exactly when the mirror's current exact tag (none
when HEAD is not precisely on a tag) differs from the pin's tag; for a
branch-only pin whose mirror entry exists, `needsReclone` is false. -/
theorem tagPin_and_branchPin_reclone (pin : RepoConfig) (s : RepoState)
    (hcommit : truthy pin.commit = false) (hcl : isRepoCloned s = true) :
    (∀ t, pin.tag = some t → t ≠ "" →
      (needsReclone pin s = true ↔ getRepoTag s ≠ some t)) ∧
    (truthy pin.tag = false → needsReclone pin s = false) := by
  constructor
  · intro t ht hne
    have htr : truthy (some t) = true := by simp [truthy, hne]
    cases hg : getRepoTag s with
    | none => simp [needsReclone, hcl, hcommit, ht, htr, hg]
    | some u =>
      have hval : needsReclone pin s = !(u == t) := by
        simp [needsReclone, hcl, hcommit, ht, htr, hg]
      rw [hval]
      by_cases hut : u = t
      · subst hut; simp
      · simp [hut]
  · intro htagf
    simp [needsReclone, hcl, hcommit, htagf]

/-- C8, witness: a tag pin against a mirror whose HEAD is not on any tag
(mismatch), and a branch-only pin (never recloned). -/
theorem tagPin_and_branchPin_reclone_witness :
    (needsReclone ⟨"noir", "url", some "master", some "v1.0.0-beta.18", none, none⟩
        ⟨true, true, some "h", none⟩ = true ↔
      getRepoTag ⟨true, true, some "h", none⟩ ≠ some "v1.0.0-beta.18") ∧
    (needsReclone ⟨"noir", "url", some "master", none, none, none⟩
        ⟨true, true, some "h", none⟩ = false) :=
  ⟨(tagPin_and_branchPin_reclone _ _ (by decide) (by decide)).1
      "v1.0.0-beta.18" rfl (by decide),
    (tagPin_and_branchPin_reclone _ _ (by decide) (by decide)).2 (by decide)⟩

/-! ## Claim C7 -/

/-- C7: `updateRepo` raises exactly when the repository is not cloned; when
cloned, a failure of the shallow fetch plus hard reset falls back to a
conventional pull, and when the pull also fails the function returns a
status string containing "Failed" instead of raising, leaving the mirror in
its prior state. -/
theorem updateRepo_fallback_and_raise (repoName : String) (s : RepoState)
    (g : GitOracle) :
    ((∃ e, (updateRepo repoName s g).2 = .error e) ↔
      isRepoCloned s = false) ∧
    (isRepoCloned s = true → g.fetchResetResult = none →
      ∀ s2, g.pullResult = some s2 →
        updateRepo repoName s g = (s2, .ok ("Updated " ++ repoName))) ∧
    (isRepoCloned s = true → g.fetchResetResult = none → g.pullResult = none →
      (updateRepo repoName s g).1 = s ∧
      ∃ st, (updateRepo repoName s g).2 = .ok st ∧
        jsIncludes st "Failed" = true) := by
  refine ⟨?_, ?_, ?_⟩
  · cases hcl : isRepoCloned s with
    | false => simp [updateRepo, hcl]
    | true =>
      cases hf : g.fetchResetResult with
      | some s1 => simp [updateRepo, hcl, hf]
      | none =>
        cases hp : g.pullResult with
        | some s2 => simp [updateRepo, hcl, hf, hp]
        | none => simp [updateRepo, hcl, hf, hp]
  · intro hcl hf s2 hp
    simp [updateRepo, hcl, hf, hp]
  · intro hcl hf hp
    refine ⟨by simp [updateRepo, hcl, hf, hp], ?_⟩
    refine ⟨"Failed to update " ++ repoName ++ ": " ++ g.pullErr,
      by simp [updateRepo, hcl, hf, hp], ?_⟩
    have h1 : ("Failed".data).isPrefixOf
        ("Failed to update ".data ++ repoName.data) = true :=
      isPrefixOf_append_of_isPrefixOf _ (by decide)
    have h2 : ("Failed".data).isPrefixOf
        (("Failed to update ".data ++ repoName.data) ++ ": ".data) = true :=
      isPrefixOf_append_of_isPrefixOf _ h1
    exact jsIncludes_of_prefix g.pullErr h2

/-- C7, witness: a cloned mirror whose shallow fetch and fallback pull both
fail returns a "Failed..." status and keeps its state; an uncloned mirror
raises. -/
theorem updateRepo_fallback_and_raise_witness :
    ((∃ e, (updateRepo "noir" ⟨true, true, some "h", none⟩
        ⟨none, none, "net down", true, "", ⟨true, true, none, none⟩⟩).2 =
          .error e) ↔
      isRepoCloned ⟨true, true, some "h", none⟩ = false) ∧
    ((updateRepo "noir" ⟨true, true, some "h", none⟩
        ⟨none, none, "net down", true, "", ⟨true, true, none, none⟩⟩).1 =
      ⟨true, true, some "h", none⟩ ∧
      ∃ st, (updateRepo "noir" ⟨true, true, some "h", none⟩
          ⟨none, none, "net down", true, "", ⟨true, true, none, none⟩⟩).2 =
            .ok st ∧
        jsIncludes st "Failed" = true) :=
  ⟨(updateRepo_fallback_and_raise "noir" ⟨true, true, some "h", none⟩
      ⟨none, none, "net down", true, "", ⟨true, true, none, none⟩⟩).1,
    (updateRepo_fallback_and_raise "noir" ⟨true, true, some "h", none⟩
      ⟨none, none, "net down", true, "", ⟨true, true, none, none⟩⟩).2.2
      rfl rfl rfl⟩

/-! ## Claim C2 -/

/-- C2: `cloneRepo` computes `reclone = force OR needsReclone`; when reclone
holds and the mirror directory exists, the recursive removal is the first
action; when the mirror entry still exists after the deletion step (which,
for a well-formed on-disk state, happens exactly when no reclone was needed
and it was already cloned), the call performs only an update-in-place and
returns its status, with no fresh clone. -/
theorem cloneRepo_removal_then_update (config : RepoConfig) (s : RepoState)
    (g : GitOracle) (force : Bool)
    (hwf : s.gitExists = true → s.dirExists = true) :
    (((force || needsReclone config s) && s.dirExists) = true →
      (cloneRepo config s g force).trace.head? = some CloneAction.removeDir) ∧
    (((force || needsReclone config s) && s.dirExists) = false →
      CloneAction.removeDir ∉ (cloneRepo config s g force).trace) ∧
    (isRepoCloned (if ((force || needsReclone config s) && s.dirExists) = true
          then removedState else s) = true →
      (cloneRepo config s g force).trace = [CloneAction.updateInPlace] ∧
      CloneAction.freshClone ∉ (cloneRepo config s g force).trace ∧
      (cloneRepo config s g force).result = (updateRepo config.name s g).2 ∧
      (cloneRepo config s g force).state = (updateRepo config.name s g).1) ∧
    (isRepoCloned (if ((force || needsReclone config s) && s.dirExists) = true
          then removedState else s) = true ↔
      ((force || needsReclone config s) = false ∧ isRepoCloned s = true)) := by
  cases hrm : ((force || needsReclone config s) && s.dirExists) with
  | true =>
    refine ⟨fun _ => ?_, by simp, fun h => ?_, ?_⟩
    · cases hok : g.cloneOk with
      | true => simp [cloneRepo, hrm, hok, isRepoCloned, removedState]
      | false => simp [cloneRepo, hrm, hok, isRepoCloned, removedState]
    · exact absurd h (by simp [isRepoCloned, removedState])
    · constructor
      · intro h; exact absurd h (by simp [isRepoCloned, removedState])
      · rintro ⟨hforce, hcl⟩
        rw [hforce] at hrm
        have hd : s.dirExists = true := hwf hcl
        rw [hd] at hrm
        simp at hrm
  | false =>
    refine ⟨by simp, fun _ => ?_, ?_, ?_⟩
    · cases hcl : isRepoCloned s with
      | true => simp [cloneRepo, hrm, hcl]
      | false =>
        cases hok : g.cloneOk with
        | true => simp [cloneRepo, hrm, hcl, hok]
        | false => simp [cloneRepo, hrm, hcl, hok]
    · intro h
      have hcl : isRepoCloned s = true := by simpa using h
      refine ⟨?_, ?_, ?_, ?_⟩ <;> simp [cloneRepo, hrm, hcl]
    · rw [if_neg (by simp : ¬ ((false : Bool) = true))]
      constructor
      · intro hcl
        refine ⟨?_, hcl⟩
        have hd : s.dirExists = true := hwf hcl
        rw [hd] at hrm
        simpa using hrm
      · exact fun h => h.2

/-- C2, witness: an up-to-date branch-pin mirror with `force = false` takes
the update-in-place path with no removal and no fresh clone; the same
mirror with `force = true` removes the directory first. -/
theorem cloneRepo_removal_then_update_witness :
    (cloneRepo ⟨"noir", "url", some "master", none, none, none⟩
        ⟨true, true, some "h", none⟩
        ⟨some ⟨true, true, some "h2", none⟩, none, "", true, "",
          ⟨true, true, none, none⟩⟩ true).trace.head? =
      some CloneAction.removeDir ∧
    ((cloneRepo ⟨"noir", "url", some "master", none, none, none⟩
        ⟨true, true, some "h", none⟩
        ⟨some ⟨true, true, some "h2", none⟩, none, "", true, "",
          ⟨true, true, none, none⟩⟩ false).trace =
      [CloneAction.updateInPlace] ∧
      CloneAction.freshClone ∉
        (cloneRepo ⟨"noir", "url", some "master", none, none, none⟩
          ⟨true, true, some "h", none⟩
          ⟨some ⟨true, true, some "h2", none⟩, none, "", true, "",
            ⟨true, true, none, none⟩⟩ false).trace ∧
      (cloneRepo ⟨"noir", "url", some "master", none, none, none⟩
          ⟨true, true, some "h", none⟩
          ⟨some ⟨true, true, some "h2", none⟩, none, "", true, "",
            ⟨true, true, none, none⟩⟩ false).result =
        (updateRepo "noir" ⟨true, true, some "h", none⟩
          ⟨some ⟨true, true, some "h2", none⟩, none, "", true, "",
            ⟨true, true, none, none⟩⟩).2 ∧
      (cloneRepo ⟨"noir", "url", some "master", none, none, none⟩
          ⟨true, true, some "h", none⟩
          ⟨some ⟨true, true, some "h2", none⟩, none, "", true, "",
            ⟨true, true, none, none⟩⟩ false).state =
        (updateRepo "noir" ⟨true, true, some "h", none⟩
          ⟨some ⟨true, true, some "h2", none⟩, none, "", true, "",
            ⟨true, true, none, none⟩⟩).1) :=
  ⟨(cloneRepo_removal_then_update ⟨"noir", "url", some "master", none, none, none⟩
      ⟨true, true, some "h", none⟩
      ⟨some ⟨true, true, some "h2", none⟩, none, "", true, "",
        ⟨true, true, none, none⟩⟩ true (fun _ => rfl)).1 (by decide),
    (cloneRepo_removal_then_update ⟨"noir", "url", some "master", none, none, none⟩
      ⟨true, true, some "h", none⟩
      ⟨some ⟨true, true, some "h2", none⟩, none, "", true, "",
        ⟨true, true, none, none⟩⟩ false (fun _ => rfl)).2.2.1 (by decide)⟩

/-! ## Claim C3 -/

/-- C3: for a non-empty selected pin list, an exception from one repository
is caught and recorded as that repository's failure status (which contains
"Error"), every selected pin yields exactly one outcome in order, and the
batch success flag is true exactly when no per-repository status contains
"error" case-insensitively. -/
theorem syncRepos_isolation_and_success (reposDir : String)
    (pins : List RepoConfig) (run : RepoConfig → Except String String)
    (hne : pins ≠ []) :
    ((syncRepos reposDir pins run).repos.length = pins.length) ∧
    (∀ i : Nat, (syncRepos reposDir pins run).repos[i]? =
      (pins[i]?).map (syncEntryFor run)) ∧
    (∀ c m, run c = .error m →
      syncEntryFor run c = ⟨c.name, "Error: " ++ m⟩ ∧
      jsIncludes ("Error: " ++ m) "Error" = true) ∧
    ((syncRepos reposDir pins run).success = true ↔
      ∀ r ∈ (syncRepos reposDir pins run).repos,
        statusHasError r.status = false) := by
  have hemp : pins.isEmpty = false := by
    simpa [List.isEmpty_iff] using hne
  refine ⟨?_, ?_, ?_, ?_⟩
  · simp [syncRepos, hemp]
  · intro i
    simp [syncRepos, hemp, List.getElem?_map]
  · intro c m hrun
    refine ⟨by simp [syncEntryFor, hrun], ?_⟩
    exact jsIncludes_of_prefix m (by decide)
  · have hrepos : (syncRepos reposDir pins run).repos =
        pins.map (syncEntryFor run) := by
      simp [syncRepos, hemp]
    have hsucc : (syncRepos reposDir pins run).success =
        ((pins.map (syncEntryFor run)).all fun r =>
          !(statusHasError r.status)) := by
      simp [syncRepos, hemp]
    rw [hsucc, hrepos, List.all_eq_true]
    constructor
    · intro hall r hr; simpa using hall r hr
    · intro hall r hr; simpa using hall r hr

/-- C3, witness: a two-pin batch where the first sync succeeds and the
second throws yields two outcomes in order and an unsuccessful batch. -/
theorem syncRepos_isolation_and_success_witness :
    ((syncRepos "/r"
        [⟨"a", "ua", some "main", none, none, none⟩,
          ⟨"b", "ub", some "main", none, none, none⟩]
        (fun c => if c.name == "a" then .ok "Cloned a @ main (branch)"
          else .error "network failure")).repos.length = 2) ∧
    ((syncRepos "/r"
        [⟨"a", "ua", some "main", none, none, none⟩,
          ⟨"b", "ub", some "main", none, none, none⟩]
        (fun c => if c.name == "a" then .ok "Cloned a @ main (branch)"
          else .error "network failure")).repos[1]? =
      some ⟨"b", "Error: network failure"⟩) ∧
    ((syncRepos "/r"
        [⟨"a", "ua", some "main", none, none, none⟩,
          ⟨"b", "ub", some "main", none, none, none⟩]
        (fun c => if c.name == "a" then .ok "Cloned a @ main (branch)"
          else .error "network failure")).success = true ↔
      ∀ r ∈ (syncRepos "/r"
        [⟨"a", "ua", some "main", none, none, none⟩,
          ⟨"b", "ub", some "main", none, none, none⟩]
        (fun c => if c.name == "a" then .ok "Cloned a @ main (branch)"
          else .error "network failure")).repos,
        statusHasError r.status = false) :=
  ⟨(syncRepos_isolation_and_success "/r" _ _ (by decide)).1,
    by
      have h := (syncRepos_isolation_and_success "/r"
        [⟨"a", "ua", some "main", none, none, none⟩,
          ⟨"b", "ub", some "main", none, none, none⟩]
        (fun c => if c.name == "a" then .ok "Cloned a @ main (branch)"
          else .error "network failure") (by decide)).2.1 1
      rw [h]
      rfl,
    (syncRepos_isolation_and_success "/r" _ _ (by decide)).2.2.2⟩

/-! ## Claim C9 -/

theorem hasUnescapedActive_escape (l : List Char) :
    hasUnescapedActive (l.flatMap fun c =>
      if shellActive c then ['\\', c] else [c]) = false := by
  induction l with
  | nil => rfl
  | cons c t ih =>
    cases hact : shellActive c with
    | true =>
      simp only [List.flatMap_cons, hact, if_true, List.cons_append,
        List.singleton_append]
      simpa [hasUnescapedActive] using ih
    | false =>
      have hc : ¬ (c = '\\') := by
        intro h
        rw [h] at hact
        simp [shellActive] at hact
      simp only [List.flatMap_cons, hact, if_false, List.singleton_append]
      rw [hasUnescapedActive.eq_def]
      simp [hc, hact, ih]

/-- C9: escaping a query with `escapeShell` before embedding it between
double quotes leaves no shell-active character (double quote, dollar,
backtick, backslash, exclamation mark) unescaped under the shell's
backslash-escape scan, so no command substitution can occur; in particular
the injection probe `$(rm -rf /)` becomes `\$(rm -rf /)`, whose only active
characters are consumed by escaping backslashes. -/
theorem escapeShell_no_unescaped_active :
    (∀ q : String, hasUnescapedActive (escapeShell q).data = false) ∧
    escapeShell "$(rm -rf /)" = "\\$(rm -rf /)" ∧
    hasUnescapedActive (escapeShell "$(rm -rf /)").data = false :=
  ⟨fun q => hasUnescapedActive_escape q.data, by decide, by decide⟩

/-! ## Claim C10 -/

/-- A direct filesystem read at an already-resolved path: `existsSync`
guard, then the `try readFileSync catch` returning null. -/
def readDirect (fs : FS) (p : String) : Option String :=
  if !(existsSync fs p) then none else readFileSyncFS fs p

/-- C10: `readFile` treats any path beginning with `/` as an absolute path
and reads it directly — independently of the mirror root, so reads are not
confined to the repos directory — while other paths are resolved beneath
the mirror root; a missing or unreadable file yields null; and the public
`read_file` tool (`readRepoFile`) passes an absolute path straight
through. -/
theorem readFile_absolute_bypass :
    (∀ (fs : FS) (d d2 p : String), jsStartsWith p "/" = true →
      readFile fs d p = readDirect fs p ∧ readFile fs d p = readFile fs d2 p) ∧
    (∀ (fs : FS) (d p : String), jsStartsWith p "/" = false →
      readFile fs d p = readDirect fs (nodeJoin d p)) ∧
    (∀ (fs : FS) (d p : String),
      readDirect fs (if jsStartsWith p "/" then p else nodeJoin d p) = none →
      readFile fs d p = none) ∧
    (readFile ⟨[("/etc/passwd", some "root:x:0:0:root")]⟩
      "/home/user/.noir-mcp/repos" "/etc/passwd" = some "root:x:0:0:root") ∧
    (jsStartsWith "/etc/passwd" "/home/user/.noir-mcp/repos" = false) ∧
    ((readRepoFile ⟨[("/etc/passwd", some "root:x:0:0:root")]⟩
      "/home/user/.noir-mcp/repos" "/etc/passwd").success = true) := by
  refine ⟨?_, ?_, ?_, by decide, by decide, by decide⟩
  · intro fs d d2 p h
    have e1 : readFile fs d p = readDirect fs p := by
      simp [readFile, readDirect, h]
    have e2 : readFile fs d2 p = readDirect fs p := by
      simp [readFile, readDirect, h]
    exact ⟨e1, e1.trans e2.symm⟩
  · intro fs d p h
    simp [readFile, readDirect, h]
  · intro fs d p h
    cases hsw : jsStartsWith p "/" with
    | true =>
      rw [hsw] at h
      rw [if_pos rfl] at h
      simpa [readFile, readDirect, hsw] using h
    | false =>
      rw [hsw] at h
      rw [if_neg (by simp)] at h
      simpa [readFile, readDirect, hsw] using h

/-! ## Claim C6 -/

/-- C6: when the resolved search root does not exist on disk, `searchCode`
returns the empty list without error, and the fallback `manualSearch` over
that root is also empty (its glob finds no files beneath a nonexistent
root). -/
theorem search_missing_root_empty (fs : FS) (eng : RegexEngine)
    (reposDir : String) (rgOut : Option String) (query filePattern : String)
    (repo : Option String) (maxR : Nat) (cs : Bool)
    (hroot : existsSync fs (searchRoot reposDir repo) = false) :
    searchCode fs eng reposDir rgOut query filePattern repo maxR cs = [] ∧
    manualSearch fs eng reposDir query (searchRoot reposDir repo) filePattern
      maxR cs = [] := by
  have hglob : globbySync fs (replaceFirst filePattern "*." "**/*.")
      (searchRoot reposDir repo) = [] := by
    apply List.filter_eq_nil_iff.mpr
    intro p hp
    rcases List.mem_map.mp hp with ⟨f, hf, rfl⟩
    have hany := List.any_eq_false.mp hroot f hf
    intro hpred
    simp only [Bool.and_eq_true] at hpred
    exact hany (by simp [hpred.1])
  have hsF : ∀ test : String → Bool,
      scanFiles fs test reposDir
        (globbySync fs (replaceFirst filePattern "*." "**/*.")
          (searchRoot reposDir repo)) maxR [] = [] := by
    intro test
    rw [hglob]
    rfl
  refine ⟨by simp [searchCode, hroot], ?_⟩
  unfold manualSearch
  cases hc : eng.compile query (!cs) with
  | some f => simpa only [hc] using hsF f
  | none =>
    cases hc2 : eng.compile (escapeRegex query) (!cs) with
    | some f => simpa only [hc, hc2] using hsF f
    | none => simp [hc, hc2]

/-- C6, witness: searching a filesystem holding no file beneath the
resolved root returns no results on either path. -/
theorem search_missing_root_empty_witness :
    searchCode ⟨[("/elsewhere/x.nr", some "fn main")]⟩
      ⟨fun _ _ => none⟩ "/mock/repos" none "fn" "*.nr" none 50 false = [] ∧
    manualSearch ⟨[("/elsewhere/x.nr", some "fn main")]⟩
      ⟨fun _ _ => none⟩ "/mock/repos" "fn" (searchRoot "/mock/repos" none)
      "*.nr" 50 false = [] :=
  search_missing_root_empty ⟨[("/elsewhere/x.nr", some "fn main")]⟩
    ⟨fun _ _ => none⟩ "/mock/repos" none "fn" "*.nr" none 50 false (by decide)

/-! ## Claim C5 -/

/-- C5: when the raw query does not compile as a regular expression but its
metacharacter-escaped form compiles to the literal-substring test (the
JavaScript semantics of a fully escaped pattern), `manualSearch` does not
fail: it runs the scan with the query matched as a literal substring. -/
theorem manualSearch_literal_fallback (fs : FS) (eng : RegexEngine)
    (reposDir query searchPath filePattern : String) (maxR : Nat) (cs : Bool)
    (f : String → Bool)
    (hfail : eng.compile query (!cs) = none)
    (hesc : eng.compile (escapeRegex query) (!cs) = some f)
    (hlit : ∀ s, f s = litTest query cs s) :
    manualSearch fs eng reposDir query searchPath filePattern maxR cs =
      scanFiles fs (litTest query cs) reposDir
        (globbySync fs (replaceFirst filePattern "*." "**/*.") searchPath)
        maxR [] := by
  have hf : f = litTest query cs := funext hlit
  simp only [manualSearch, hfail, hesc, hf]

/-- A stub regex engine for the C5 witness: it rejects the raw query
`[unterminated` (as the JavaScript RegExp constructor does, for the
unterminated character class) and compiles its escaped form to the
literal-substring test. -/
def stubEngine : RegexEngine :=
  ⟨fun pat ic =>
    if pat == "\\[unterminated" && ic then
      some (litTest "[unterminated" false)
    else none⟩

/-- A one-file mirror for the C5 witness. -/
def stubFS : FS :=
  ⟨[("/mock/repos/noir/a.nr", some "x [unterminated y\nz")]⟩

/-- C5, witness: the query `[unterminated` does not compile, and the
fallback finds the line containing it as a literal substring. -/
theorem manualSearch_literal_fallback_witness :
    (stubEngine.compile "[unterminated" true = none) ∧
    manualSearch stubFS stubEngine "/mock/repos" "[unterminated"
        "/mock/repos" "*.nr" 50 false =
      scanFiles stubFS (litTest "[unterminated" false) "/mock/repos"
        (globbySync stubFS (replaceFirst "*.nr" "*." "**/*.") "/mock/repos")
        50 [] ∧
    scanFiles stubFS (litTest "[unterminated" false) "/mock/repos"
        (globbySync stubFS (replaceFirst "*.nr" "*." "**/*.") "/mock/repos")
        50 [] =
      [⟨"noir/a.nr", some 1, "x [unterminated y", "noir"⟩] :=
  ⟨rfl,
    manualSearch_literal_fallback stubFS stubEngine "/mock/repos"
      "[unterminated" "/mock/repos" "*.nr" 50 false
      (litTest "[unterminated" false) rfl rfl (fun _ => rfl),
    by decide⟩

/-! ## Claim C4 -/

theorem scanLines_length_le (test : String → Bool) (d f : String) :
    ∀ (ls : List String) (i m : Nat) (acc : List SearchResult),
      (scanLines test d f ls i m acc).length ≤ max acc.length m := by
  intro ls
  induction ls with
  | nil =>
    intro i m acc
    simp [scanLines, Nat.le_max_left]
  | cons l rest ih =>
    intro i m acc
    rw [scanLines]
    by_cases hge : acc.length ≥ m
    · rw [if_pos hge]
      exact Nat.le_max_left _ _
    · rw [if_neg hge]
      have hlt : acc.length < m := Nat.lt_of_not_le hge
      refine le_trans (ih (i + 1) m _) ?_
      have hacc' :
          (if test l then acc ++ [mkScanResult d f l i] else acc).length ≤ m := by
        cases htest : test l with
        | true => simp [List.length_append]; omega
        | false => simp; omega
      exact le_trans (Nat.max_le.mpr ⟨hacc', Nat.le_refl m⟩)
        (Nat.le_max_right acc.length m)

theorem scanLines_mem (test : String → Bool) (d f : String) :
    ∀ (ls : List String) (i m : Nat) (acc : List SearchResult)
      (r : SearchResult), r ∈ scanLines test d f ls i m acc →
      r ∈ acc ∨ ∃ l j, l ∈ ls ∧ test l = true ∧ r = mkScanResult d f l j := by
  intro ls
  induction ls with
  | nil =>
    intro i m acc r hr
    exact .inl (by simpa [scanLines] using hr)
  | cons l rest ih =>
    intro i m acc r hr
    rw [scanLines] at hr
    by_cases hge : acc.length ≥ m
    · rw [if_pos hge] at hr
      exact .inl hr
    · rw [if_neg hge] at hr
      rcases ih (i + 1) m _ r hr with hacc' | ⟨l', j, hl', ht, hrr⟩
      · cases htest : test l with
        | false =>
          rw [htest] at hacc'
          simp at hacc'
          exact .inl hacc'
        | true =>
          rw [htest] at hacc'
          simp at hacc'
          rcases hacc' with h | h
          · exact .inl h
          · exact .inr ⟨l, i, List.mem_cons_self _ _, htest, h⟩
      · exact .inr ⟨l', j, List.mem_cons_of_mem _ hl', ht, hrr⟩

theorem scanFiles_length_le (fs : FS) (test : String → Bool) (d : String) :
    ∀ (files : List String) (m : Nat) (acc : List SearchResult),
      (scanFiles fs test d files m acc).length ≤ max acc.length m := by
  intro files
  induction files with
  | nil =>
    intro m acc
    simp [scanFiles, Nat.le_max_left]
  | cons f rest ih =>
    intro m acc
    rw [scanFiles]
    by_cases hge : acc.length ≥ m
    · rw [if_pos hge]
      exact Nat.le_max_left _ _
    · rw [if_neg hge]
      have hlt : acc.length < m := Nat.lt_of_not_le hge
      cases hread : readFileSyncFS fs f with
      | none => exact ih m acc
      | some content =>
        have h1 := scanLines_length_le test d f (jsSplitChar '\n' content) 0 m acc
        have h2 : (scanLines test d f (jsSplitChar '\n' content) 0 m acc).length
            ≤ m :=
          le_trans h1 (Nat.max_le.mpr ⟨Nat.le_of_lt hlt, Nat.le_refl m⟩)
        refine le_trans (ih m _) ?_
        exact le_trans (Nat.max_le.mpr ⟨h2, Nat.le_refl m⟩)
          (Nat.le_max_right acc.length m)

theorem scanFiles_mem (fs : FS) (test : String → Bool) (d : String) :
    ∀ (files : List String) (m : Nat) (acc : List SearchResult)
      (r : SearchResult), r ∈ scanFiles fs test d files m acc →
      r ∈ acc ∨ ∃ fl l j, fl ∈ files ∧ test l = true ∧
        r = mkScanResult d fl l j := by
  intro files
  induction files with
  | nil =>
    intro m acc r hr
    exact .inl (by simpa [scanFiles] using hr)
  | cons f rest ih =>
    intro m acc r hr
    rw [scanFiles] at hr
    by_cases hge : acc.length ≥ m
    · rw [if_pos hge] at hr
      exact .inl hr
    · rw [if_neg hge] at hr
      cases hread : readFileSyncFS fs f with
      | none =>
        rw [hread] at hr
        rcases ih m acc r hr with h | ⟨fl, l, j, hfl, ht, hrr⟩
        · exact .inl h
        · exact .inr ⟨fl, l, j, List.mem_cons_of_mem _ hfl, ht, hrr⟩
      | some content =>
        rw [hread] at hr
        rcases ih m _ r hr with h | ⟨fl, l, j, hfl, ht, hrr⟩
        · rcases scanLines_mem test d f (jsSplitChar '\n' content) 0 m acc r h
            with h' | ⟨l, j, _, ht, hrr⟩
          · exact .inl h'
          · exact .inr ⟨f, l, j, List.mem_cons_self _ _, ht, hrr⟩
        · exact .inr ⟨fl, l, j, List.mem_cons_of_mem _ hfl, ht, hrr⟩

theorem parseRgGo_length_le (d : String) :
    ∀ (ls : List String) (m : Nat) (acc : List SearchResult),
      (parseRgGo d m ls acc).length ≤ max acc.length m := by
  intro ls
  induction ls with
  | nil =>
    intro m acc
    simp [parseRgGo, Nat.le_max_left]
  | cons l rest ih =>
    intro m acc
    rw [parseRgGo]
    by_cases hge : acc.length ≥ m
    · rw [if_pos hge]
      exact Nat.le_max_left _ _
    · rw [if_neg hge]
      have hlt : acc.length < m := Nat.lt_of_not_le hge
      cases hparse : parseRgLine l with
      | none => exact ih m acc
      | some t =>
        refine le_trans (ih m _) ?_
        have hacc' : (acc ++ [mkRgResult d t.1 t.2.1 t.2.2]).length ≤ m := by
          simp [List.length_append]; omega
        exact le_trans (Nat.max_le.mpr ⟨hacc', Nat.le_refl m⟩)
          (Nat.le_max_right acc.length m)

theorem parseRgGo_mem (d : String) :
    ∀ (ls : List String) (m : Nat) (acc : List SearchResult)
      (r : SearchResult), r ∈ parseRgGo d m ls acc →
      r ∈ acc ∨ ∃ l p n c, l ∈ ls ∧ parseRgLine l = some (p, n, c) ∧
        r = mkRgResult d p n c := by
  intro ls
  induction ls with
  | nil =>
    intro m acc r hr
    exact .inl (by simpa [parseRgGo] using hr)
  | cons l rest ih =>
    intro m acc r hr
    rw [parseRgGo] at hr
    by_cases hge : acc.length ≥ m
    · rw [if_pos hge] at hr
      exact .inl hr
    · rw [if_neg hge] at hr
      cases hparse : parseRgLine l with
      | none =>
        rw [hparse] at hr
        rcases ih m acc r hr with h | ⟨l', p, n, c, hl', hp, hrr⟩
        · exact .inl h
        · exact .inr ⟨l', p, n, c, List.mem_cons_of_mem _ hl', hp, hrr⟩
      | some t =>
        rw [hparse] at hr
        rcases ih m _ r hr with h | ⟨l', p, n, c, hl', hp, hrr⟩
        · simp at h
          rcases h with h | h
          · exact .inl h
          · exact .inr ⟨l, t.1, t.2.1, t.2.2, List.mem_cons_self _ _, by
              rw [hparse], by rw [h]⟩
        · exact .inr ⟨l', p, n, c, List.mem_cons_of_mem _ hl', hp, hrr⟩

/-- The result shape stated by the specification: a mirror-relative file
path, a repo field equal to the first segment of that path, a trimmed
content line, and a 1-based line number.  This predicate follows the spec's
words; the theorems compare the source-derived search paths against it. -/
def specResultShape (reposDir : String) (r : SearchResult) : Prop :=
  (∃ p, r.file = nodeRelative reposDir p) ∧
  r.repo = firstSegment r.file ∧
  (∃ raw, r.content = jsTrim raw) ∧
  (∃ n, r.line = some n ∧ 1 ≤ n)

theorem mkScanResult_shape (d f l : String) (i : Nat) :
    specResultShape d (mkScanResult d f l i) :=
  ⟨⟨f, rfl⟩, rfl, ⟨l, rfl⟩, ⟨i + 1, rfl, by omega⟩⟩

/-- Well-formedness of the external matcher's output: every parseable line
reports a nonzero (1-based) line number, as ripgrep's `-n` output does. -/
def rgOutputWellFormed (out : String) : Bool :=
  (jsSplitChar '\n' out).all fun l =>
    match parseRgLine l with
    | some (_, n, _) => n != 0
    | none => true

/-- C4: both the primary path (parsing the external matcher's output) and
the fallback in-process scan return at most `maxResults` results, and every
result has the spec's `SearchResult` shape: mirror-relative file path,
1-based line number, trimmed matched line, and a repo field equal to the
first segment of the relative path. -/
theorem search_results_shape_and_cap (reposDir out : String) (maxR : Nat)
    (fs : FS) (eng : RegexEngine) (query searchPath filePattern : String)
    (cs : Bool) (hwf : rgOutputWellFormed out = true) :
    ((parseRgOutput reposDir out maxR).length ≤ maxR ∧
      ∀ r ∈ parseRgOutput reposDir out maxR, specResultShape reposDir r) ∧
    ((manualSearch fs eng reposDir query searchPath filePattern maxR
        cs).length ≤ maxR ∧
      ∀ r ∈ manualSearch fs eng reposDir query searchPath filePattern maxR cs,
        specResultShape reposDir r) := by
  have hscan : ∀ (test : String → Bool) (files : List String),
      (scanFiles fs test reposDir files maxR []).length ≤ maxR ∧
      ∀ r ∈ scanFiles fs test reposDir files maxR [],
        specResultShape reposDir r := by
    intro test files
    constructor
    · simpa using scanFiles_length_le fs test reposDir files maxR []
    · intro r hr
      rcases scanFiles_mem fs test reposDir files maxR [] r hr with h | h
      · simp at h
      · rcases h with ⟨fl, l, j, _, _, hrr⟩
        rw [hrr]
        exact mkScanResult_shape reposDir fl l j
  refine ⟨⟨?_, ?_⟩, ?_⟩
  · simpa using parseRgGo_length_le reposDir _ maxR []
  · intro r hr
    rcases parseRgGo_mem reposDir _ maxR [] r hr with h | h
    · simp at h
    · rcases h with ⟨l, p, n, c, hl, hp, hrr⟩
      have hl' : l ∈ jsSplitChar '\n' out := (List.mem_filter.mp hl).1
      have hn : n ≠ 0 := by
        have hall := List.all_eq_true.mp hwf l hl'
        rw [hp] at hall
        simpa using hall
      rw [hrr]
      exact ⟨⟨p, rfl⟩, rfl, ⟨c, rfl⟩, ⟨n, rfl, by omega⟩⟩
  · unfold manualSearch
    cases hc : eng.compile query (!cs) with
    | some f => exact hscan f _
    | none =>
      cases hc2 : eng.compile (escapeRegex query) (!cs) with
      | some f => exact hscan f _
      | none => simp

/-- C4, witness: a one-line matcher output and a one-file mirror, capped at
one result on both paths. -/
theorem search_results_shape_and_cap_witness :
    rgOutputWellFormed "/mock/repos/noir/a.nr:3:  fn main" = true ∧
    (parseRgOutput "/mock/repos" "/mock/repos/noir/a.nr:3:  fn main"
      1).length ≤ 1 ∧
    (manualSearch ⟨[("/mock/repos/noir/b.nr", some "fn bar")]⟩
      ⟨fun _ _ => none⟩ "/mock/repos" "fn" "/mock/repos" "*.nr" 1
      false).length ≤ 1 :=
  ⟨by decide,
    (search_results_shape_and_cap "/mock/repos"
      "/mock/repos/noir/a.nr:3:  fn main" 1
      ⟨[("/mock/repos/noir/b.nr", some "fn bar")]⟩ ⟨fun _ _ => none⟩
      "fn" "/mock/repos" "*.nr" false (by decide)).1.1,
    (search_results_shape_and_cap "/mock/repos"
      "/mock/repos/noir/a.nr:3:  fn main" 1
      ⟨[("/mock/repos/noir/b.nr", some "fn bar")]⟩ ⟨fun _ _ => none⟩
      "fn" "/mock/repos" "*.nr" false (by decide)).2.1⟩

end NoirMcp
